import Mathlib

/-!
Verification of the FlagGame repository: the flag-viewer recolouring logic
(`flag.jsx`: `componentClick`, `extractSvgData`; `colorPicker.jsx`: `ColourPicker`;
`App.jsx`) and the offline flag generator described by the specification
(`create_flag.py`, whose source is not in the repository snapshot; it is
modelled from the specification where needed).

The viewer's DOM is embedded shallowly: a flag document is the ordered list of
its `.flag-component` shape elements, each carrying its `id` attribute
(`Option String`, `none` = attribute absent, as `getAttribute` returns null)
and its `fill` attribute.  JavaScript truthiness of strings and of attribute
values, object-key coercion (`obj[null]` uses the key "null"), and
`Array.prototype.pop` (removes the LAST element, `undefined` on empty)
are modelled explicitly.
-/

namespace FlagGame

/-- A shape element of a loaded flag document: its `id` attribute and its
`fill` attribute.  `none` models an absent attribute / the JS `undefined`
value stored by `setAttribute(_, undefined)`. -/
structure SvgEl where
  id : Option String
  fill : Option String
deriving DecidableEq, Repr

/-- JavaScript truthiness of a string-or-null value: `null` and the empty
string are falsy, every other string is truthy. -/
def jsTruthy : Option String → Bool
  | none => false
  | some s => s ≠ ""

/-- Replace the `fill` attribute of the element at position `i`
(`component.setAttribute('fill', cur)` on the clicked component). -/
def setFillAt : List SvgEl → Nat → Option String → List SvgEl
  | [], _, _ => []
  | el :: rest, 0, cur => { el with fill := cur } :: rest
  | el :: rest, n + 1, cur => el :: setFillAt rest n cur

/-- `componentClick(svgElement, component, id, color)` from `flag.jsx`:
if the captured `id` is truthy, set the fill of every `.flag-component`
whose `id` attribute equals it to `selectedColorRef.current`; otherwise set
only the clicked component's fill.  `cur` is the value read from
`selectedColorRef.current` at invocation time. -/
def componentClick (doc : List SvgEl) (clicked : Nat) (clickedId : Option String)
    (cur : Option String) : List SvgEl :=
  if jsTruthy clickedId then
    doc.map fun el => if el.id == clickedId then { el with fill := cur } else el
  else
    setFillAt doc clicked cur

/-- Viewer state: the loaded document and `selectedColorRef.current`. -/
structure ViewerState where
  doc : List SvgEl
  selectedColorRef : Option String
deriving DecidableEq, Repr

/-- The `useEffect` that keeps `selectedColorRef.current` in sync with the
`selectedColor` prop: the ref holds the most recently selected colour. -/
def updateSelectedColor (st : ViewerState) (c : Option String) : ViewerState :=
  { st with selectedColorRef := c }

/-- The click listener installed by `extractSvgData` for the element at
index `i`: it invokes `componentClick` with the element's captured `id`,
reading `selectedColorRef.current` at click time. -/
def clickListener (st : ViewerState) (i : Nat) (capturedId : Option String) : ViewerState :=
  { st with doc := componentClick st.doc i capturedId st.selectedColorRef }

theorem setFillAt_get_same {doc : List SvgEl} {i : Nat} {elc : SvgEl}
    (h : doc.get? i = some elc) (cur : Option String) :
    (setFillAt doc i cur).get? i = some { elc with fill := cur } := by
  induction doc generalizing i with
  | nil => simp at h
  | cons hd tl ih =>
    cases i with
    | zero => simp_all [setFillAt]
    | succ n => simpa [setFillAt] using ih (by simpa using h)

theorem setFillAt_get_other {doc : List SvgEl} {i : Nat} (j : Nat) (hij : j ≠ i)
    (cur : Option String) : (setFillAt doc i cur).get? j = doc.get? j := by
  induction doc generalizing i j with
  | nil => cases i <;> simp [setFillAt]
  | cons hd tl ih =>
    cases i with
    | zero =>
      cases j with
      | zero => exact absurd rfl hij
      | succ m => simp [setFillAt]
    | succ n =>
      cases j with
      | zero => simp [setFillAt]
      | succ m => simpa [setFillAt] using ih m (fun hc => hij (by simp [hc]))

/-- C1: for every loaded flag document and every shape element with a
non-empty identity attribute, a click on that shape sets the fill of every
shape element whose identity equals that identity to the colour selected at
the moment of the click (`c1`, the value `selectedColorRef.current` holds
after the selection update), independently of the colour `c0` selected when
the document loaded. -/
theorem click_repaints_identity_group (doc : List SvgEl) (c0 c1 : Option String)
    (i : Nat) (ident : String) (hne : ident ≠ "") (elc : SvgEl)
    (hget : doc.get? i = some elc) (hid : elc.id = some ident) :
    ∀ el ∈ (clickListener (updateSelectedColor ⟨doc, c0⟩ c1) i (some ident)).doc,
      el.id = some ident → el.fill = c1 := by
  intro el hmem hel
  have htr : jsTruthy (some ident) = true := by simp [jsTruthy, hne]
  simp only [clickListener, updateSelectedColor, componentClick, htr, if_true] at hmem
  simp only [List.mem_map] at hmem
  obtain ⟨e, _, heq⟩ := hmem
  by_cases h : e.id = some ident
  · rw [if_pos (by simp [h])] at heq
    rw [← heq]
  · rw [if_neg (by simp [h])] at heq
    exact absurd (heq ▸ hel) h

/-- A small concrete document used by witnesses. -/
def docW1 : List SvgEl :=
  [⟨some "a", some "#111111"⟩, ⟨none, some "#222222"⟩, ⟨some "a", some "#333333"⟩]

theorem click_repaints_identity_group_witness :
    ("a" ≠ "") ∧
      ∀ el ∈ (clickListener (updateSelectedColor ⟨docW1, some "#000000"⟩
          (some "#C8102E")) 0 (some "a")).doc,
        el.id = some "a" → el.fill = some "#C8102E" :=
  ⟨by decide,
    click_repaints_identity_group docW1 (some "#000000") (some "#C8102E") 0 "a"
      (by decide) ⟨some "a", some "#111111"⟩ rfl rfl⟩

/-- C9: clicking a shape element that has no identity attribute sets the fill
of that element only; every other element of the document is unchanged. -/
theorem click_idless_only_clicked (doc : List SvgEl) (c0 c1 : Option String)
    (i : Nat) (elc : SvgEl) (hget : doc.get? i = some elc) (hid : elc.id = none) :
    ((clickListener (updateSelectedColor ⟨doc, c0⟩ c1) i elc.id).doc.get? i
        = some { elc with fill := c1 }) ∧
      ∀ j, j ≠ i →
        (clickListener (updateSelectedColor ⟨doc, c0⟩ c1) i elc.id).doc.get? j
          = doc.get? j := by
  have htr : jsTruthy elc.id = false := by simp [hid, jsTruthy]
  constructor
  · simp only [clickListener, updateSelectedColor, componentClick, htr]
    simpa using setFillAt_get_same hget c1
  · intro j hj
    simp only [clickListener, updateSelectedColor, componentClick, htr]
    simpa using setFillAt_get_other j hj c1

theorem click_idless_only_clicked_witness :
    (docW1.get? 1 = some ⟨none, some "#222222"⟩) ∧
      (((clickListener (updateSelectedColor ⟨docW1, some "#000000"⟩
            (some "#FFCD00")) 1 none).doc.get? 1
          = some ⟨none, some "#FFCD00"⟩) ∧
        ∀ j, j ≠ 1 →
          (clickListener (updateSelectedColor ⟨docW1, some "#000000"⟩
              (some "#FFCD00")) 1 none).doc.get? j = docW1.get? j) :=
  ⟨rfl,
    click_idless_only_clicked docW1 (some "#000000") (some "#FFCD00") 1
      ⟨none, some "#222222"⟩ rfl rfl⟩

/-! ## `extractSvgData` (first-load grouping and placeholder colours) -/

/-- The fixed placeholder palette `grays` of `extractSvgData`, in source
order; `grays.pop()` removes and returns the LAST entry. -/
def grays : List String := ["#808080", "#909090", "#9D9D9D", "#A7A7A7"]

/-- `Array.prototype.pop`: returns the last element (`undefined`, modelled as
`none`, on an empty array) and the array with that element removed. -/
def jsPop (l : List String) : Option String × List String :=
  (l.getLast?, l.dropLast)

/-- One record `{el, id, color}` pushed into `newFlagComponents`; the DOM
element is identified by its position `elIdx` in the document, `color` is
the element's original fill attribute. -/
structure CompEntry where
  elIdx : Nat
  id : Option String
  color : Option String
deriving DecidableEq, Repr

/-- JavaScript object-key coercion: `obj[id]` with `id === null` uses the
string key "null". -/
def jsKey : Option String → String
  | none => "null"
  | some s => s

/-- Assignment `m[k] = v` on a JS object modelled as an association list:
replace the binding of `k` in place, or append it. -/
def assocSet {α : Type} : List (String × α) → String → α → List (String × α)
  | [], k, v => [(k, v)]
  | (k', v') :: rest, k, v =>
    if k' = k then (k, v) :: rest else (k', v') :: assocSet rest k v

/-- Property read `m[k]` on a JS object: `none` models `undefined`. -/
def assocGet {α : Type} : List (String × α) → String → Option α
  | [], _ => none
  | (k', v') :: rest, k => if k' = k then some v' else assocGet rest k

/-- The mutable state threaded through the `forEach` loop of
`extractSvgData`: the remaining `grays` palette, the `usedGreys` object
(values may be the `undefined` returned by a pop on an empty palette), and
the `newFlagComponents` object. -/
structure ExtractState where
  grays : List String
  usedGreys : List (String × Option String)
  comps : List (String × List CompEntry)
deriving DecidableEq, Repr

/-- Initial loop state of `extractSvgData`. -/
def initExtract : ExtractState := ⟨grays, [], []⟩

/-- The `newFlagComponents` update of the loop body: prepend the record when
the truthy `id` key is already present, otherwise store a fresh singleton.
An absent id reaches the object under the coerced key "null". -/
def updateComps (idx : Nat) (el : SvgEl) (comps : List (String × List CompEntry)) :
    List (String × List CompEntry) :=
  let entry : CompEntry := ⟨idx, el.id, el.fill⟩
  let k := jsKey el.id
  match assocGet comps k with
  | some l =>
    if jsTruthy el.id then assocSet comps k (entry :: l)
    else assocSet comps k [entry]
  | none => assocSet comps k [entry]

/-- The fill assignment of the loop body: a truthy id reuses `usedGreys[id]`
when that stored value is truthy, popping a fresh gray (and storing it)
otherwise; an id-less element always pops.  Returns the element with its new
fill, the remaining palette and the updated `usedGreys`. -/
def assignFill (el : SvgEl) (g : List String) (u : List (String × Option String)) :
    SvgEl × List String × List (String × Option String) :=
  if jsTruthy el.id then
    match assocGet u (jsKey el.id) with
    | some (some s) =>
      if s = "" then
        let p := jsPop g
        ({ el with fill := p.1 }, p.2, assocSet u (jsKey el.id) p.1)
      else ({ el with fill := some s }, g, u)
    | some none =>
      let p := jsPop g
      ({ el with fill := p.1 }, p.2, assocSet u (jsKey el.id) p.1)
    | none =>
      let p := jsPop g
      ({ el with fill := p.1 }, p.2, assocSet u (jsKey el.id) p.1)
  else
    let p := jsPop g
    ({ el with fill := p.1 }, p.2, u)

/-- The body of the `forEach` loop of `extractSvgData` for the element `el`
at document position `idx`: record the element in `newFlagComponents` and
assign its placeholder fill. -/
def extractEl (idx : Nat) (el : SvgEl) (st : ExtractState) : SvgEl × ExtractState :=
  let f := assignFill el st.grays st.usedGreys
  (f.1, ⟨f.2.1, f.2.2, updateComps idx el st.comps⟩)

/-- The `forEach` loop of `extractSvgData` over the remaining elements,
`idx` being the document position of the first of them: returns the elements
with their placeholder fills assigned, and the final loop state. -/
def extractGo : Nat → List SvgEl → ExtractState → List SvgEl × ExtractState
  | _, [], st => ([], st)
  | idx, el :: rest, st =>
    let r := extractEl idx el st
    let rr := extractGo (idx + 1) rest r.2
    (r.1 :: rr.1, rr.2)

/-- `extractSvgData`: processes every `.flag-component` element of a freshly
loaded document in order, starting from the initial state. -/
def extractSvgData (doc : List SvgEl) : List SvgEl × ExtractState :=
  extractGo 0 doc initExtract

/-- The `newFlagComponents` object built by the loop, in isolation (the
component update reads neither the palette nor `usedGreys`). -/
def compsGo : Nat → List SvgEl → List (String × List CompEntry) →
    List (String × List CompEntry)
  | _, [], cm => cm
  | idx, el :: rest, cm => compsGo (idx + 1) rest (updateComps idx el cm)

/-- The fill assignment performed by the loop, in isolation (it reads
neither `newFlagComponents` nor the element index). -/
def fillGo : List SvgEl → List String → List (String × Option String) →
    List SvgEl × List String × List (String × Option String)
  | [], g, u => ([], g, u)
  | el :: rest, g, u =>
    let f := assignFill el g u
    let r := fillGo rest f.2.1 f.2.2
    (f.1 :: r.1, r.2)

theorem extractGo_comps (idx : Nat) (els : List SvgEl) (st : ExtractState) :
    (extractGo idx els st).2.comps = compsGo idx els st.comps := by
  induction els generalizing idx st with
  | nil => rfl
  | cons el rest ih => simpa [extractGo, compsGo, extractEl] using ih (idx + 1) _

theorem extractGo_fills (idx : Nat) (els : List SvgEl) (st : ExtractState) :
    (extractGo idx els st).1 = (fillGo els st.grays st.usedGreys).1 ∧
      (extractGo idx els st).2.grays = (fillGo els st.grays st.usedGreys).2.1 ∧
      (extractGo idx els st).2.usedGreys = (fillGo els st.grays st.usedGreys).2.2 := by
  induction els generalizing idx st with
  | nil => exact ⟨rfl, rfl, rfl⟩
  | cons el rest ih =>
    obtain ⟨h1, h2, h3⟩ := ih (idx + 1)
      ⟨(assignFill el st.grays st.usedGreys).2.1,
        (assignFill el st.grays st.usedGreys).2.2,
        updateComps idx el st.comps⟩
    exact ⟨by simpa [extractGo, fillGo, extractEl] using h1,
      by simpa [extractGo, fillGo, extractEl] using h2,
      by simpa [extractGo, fillGo, extractEl] using h3⟩

theorem assocGet_assocSet_self {α : Type} (m : List (String × α)) (k : String) (v : α) :
    assocGet (assocSet m k v) k = some v := by
  induction m with
  | nil => simp [assocSet, assocGet]
  | cons q rest ih =>
    obtain ⟨kq, vq⟩ := q
    by_cases h : kq = k
    · simp [assocSet, assocGet, h]
    · simp [assocSet, assocGet, h, ih]

theorem assocGet_assocSet_ne {α : Type} (m : List (String × α)) {k k' : String}
    (h : k' ≠ k) (v : α) : assocGet (assocSet m k v) k' = assocGet m k' := by
  have hk : k ≠ k' := fun hc => h hc.symm
  induction m with
  | nil => simp [assocSet, assocGet, hk]
  | cons q rest ih =>
    obtain ⟨kq, vq⟩ := q
    by_cases hq : kq = k
    · simp [assocSet, assocGet, hq, hk]
    · by_cases hq' : kq = k'
      · simp [assocSet, assocGet, hq, hq', h]
      · simp [assocSet, assocGet, hq, hq', ih]

theorem assocGet_mem {α : Type} {m : List (String × α)} {k : String} {v : α}
    (h : assocGet m k = some v) : (k, v) ∈ m := by
  induction m with
  | nil => simp [assocGet] at h
  | cons q rest ih =>
    obtain ⟨kq, vq⟩ := q
    by_cases hq : kq = k
    · subst hq
      simp only [assocGet, if_pos rfl] at h
      cases h
      exact List.mem_cons_self _ _
    · simp only [assocGet, hq, ite_false] at h
      exact List.mem_cons_of_mem _ (ih h)

theorem mem_assocSet {α : Type} {m : List (String × α)} {k : String} {v : α}
    {p : String × α} (h : p ∈ assocSet m k v) : p = (k, v) ∨ p ∈ m := by
  induction m with
  | nil => simpa [assocSet] using h
  | cons q rest ih =>
    obtain ⟨kq, vq⟩ := q
    by_cases hq : kq = k
    · subst hq
      simp only [assocSet, if_pos rfl] at h
      rcases List.mem_cons.1 h with h1 | h1
      · exact Or.inl h1
      · exact Or.inr (List.mem_cons_of_mem _ h1)
    · simp only [assocSet, hq, ite_false] at h
      rcases List.mem_cons.1 h with h1 | h1
      · exact Or.inr (h1 ▸ List.mem_cons_self _ _)
      · rcases ih h1 with h2 | h2
        · exact Or.inl h2
        · exact Or.inr (List.mem_cons_of_mem _ h2)

theorem mem_keys_assocSet {α : Type} (m : List (String × α)) (k k' : String) (v : α) :
    k' ∈ (assocSet m k v).map Prod.fst ↔ k' = k ∨ k' ∈ m.map Prod.fst := by
  induction m with
  | nil => simp [assocSet]
  | cons q rest ih =>
    obtain ⟨kq, vq⟩ := q
    by_cases hq : kq = k
    · subst hq
      have hset : assocSet ((kq, vq) :: rest) kq v = (kq, v) :: rest := by
        simp [assocSet]
      rw [hset]
      simp only [List.map_cons, List.mem_cons]
      tauto
    · simp only [assocSet, hq, ite_false, List.map_cons, List.mem_cons, ih]
      tauto

theorem assocGet_keys_none {α : Type} {m : List (String × α)} {k : String}
    (h : assocGet m k = none) : k ∉ m.map Prod.fst := by
  induction m with
  | nil => simp
  | cons q rest ih =>
    obtain ⟨kq, vq⟩ := q
    by_cases hq : kq = k
    · simp [assocGet, hq] at h
    · simp only [assocGet, hq, ite_false] at h
      simp only [List.map_cons, List.mem_cons]
      rintro (h1 | h1)
      · exact hq h1.symm
      · exact ih h h1

theorem assocGet_keys_some {α : Type} {m : List (String × α)} {k : String} {v : α}
    (h : assocGet m k = some v) : k ∈ m.map Prod.fst := by
  have := assocGet_mem h
  exact List.mem_map.2 ⟨(k, v), this, rfl⟩

/-- The last element of the document that has no identity attribute, with
its document position. -/
def lastNone : List SvgEl → Option (Nat × SvgEl)
  | [] => none
  | el :: rest =>
    match lastNone rest with
    | some je => some (je.1 + 1, je.2)
    | none => if el.id = none then some (0, el) else none

theorem updateComps_idless {idx : Nat} {el : SvgEl} (cm : List (String × List CompEntry))
    (h : el.id = none) :
    updateComps idx el cm = assocSet cm "null" [⟨idx, none, el.fill⟩] := by
  rw [updateComps, h]
  cases hg : assocGet cm (jsKey none) <;> simp [hg, jsTruthy, jsKey]

theorem updateComps_set (idx : Nat) (el : SvgEl) (cm : List (String × List CompEntry)) :
    ∃ l, updateComps idx el cm = assocSet cm (jsKey el.id) l := by
  rw [updateComps]
  cases hg : assocGet cm (jsKey el.id) with
  | none => exact ⟨[⟨idx, el.id, el.fill⟩], by simp [hg]⟩
  | some l =>
    cases ht : jsTruthy el.id with
    | false => exact ⟨[⟨idx, el.id, el.fill⟩], by simp [hg, ht]⟩
    | true => exact ⟨⟨idx, el.id, el.fill⟩ :: l, by simp [hg, ht]⟩

theorem compsGo_lookup_null (els : List SvgEl) (cm : List (String × List CompEntry))
    (idx : Nat) (hn : ∀ e ∈ els, e.id ≠ some "null") :
    assocGet (compsGo idx els cm) "null" =
      match lastNone els with
      | some je => some [⟨idx + je.1, none, je.2.fill⟩]
      | none => assocGet cm "null" := by
  induction els generalizing cm idx with
  | nil => rfl
  | cons el rest ih =>
    have hrec := ih (updateComps idx el cm) (idx + 1)
      (fun e he => hn e (List.mem_cons_of_mem _ he))
    show assocGet (compsGo (idx + 1) rest (updateComps idx el cm)) "null" = _
    rw [hrec]
    cases hl : lastNone rest with
    | some je =>
      simp only [lastNone, hl]
      have harith : idx + 1 + je.1 = idx + (je.1 + 1) := by omega
      rw [harith]
    | none =>
      simp only [lastNone, hl]
      cases hid : el.id with
      | none =>
        rw [updateComps_idless cm hid, assocGet_assocSet_self]
        simp
      | some s =>
        have hs : s ≠ "null" := fun hc => hn el (List.mem_cons_self _ _) (hid ▸ hc ▸ rfl)
        obtain ⟨l, hl2⟩ := updateComps_set idx el cm
        rw [hl2, hid]
        simp only [jsKey]
        rw [assocGet_assocSet_ne _ (fun hc => hs hc.symm)]
        simp [hid]

/-- The two-element all-identity-less document on which the claimed
singleton grouping fails. -/
def docC2 : List SvgEl := [⟨none, some "#FF0000"⟩, ⟨none, some "#00FF00"⟩]

/-- C2 counterexample: in a document with two identity-less shape elements,
`extractSvgData` stores both under the single coerced object key "null", the
second overwriting the first, so the resulting components map has exactly
one entry and it mentions only the second element — the two elements do not
get singleton groups of their own. -/
theorem extract_idless_overwrite_counterexample :
    (extractSvgData docC2).2.comps = [("null", [⟨1, none, some "#00FF00"⟩])] := by
  decide

/-- C2 (amended): every identity-less shape element is stored under the
single coerced object key "null"; each one overwrites the previous entry, so
in a document whose shapes never carry the literal identity "null", the
components map's "null" entry is a singleton group holding exactly the last
identity-less element of the document. -/
theorem extract_null_key_holds_last_idless (doc : List SvgEl) (j : Nat) (e : SvgEl)
    (hn : ∀ x ∈ doc, x.id ≠ some "null") (hl : lastNone doc = some (j, e)) :
    assocGet (extractSvgData doc).2.comps "null" = some [⟨j, none, e.fill⟩] := by
  have hc := compsGo_lookup_null doc [] 0 hn
  rw [hl] at hc
  rw [extractSvgData, extractGo_comps]
  simpa [initExtract] using hc

/-- A three-element document (one identified and two identity-less shapes)
used by the C2 and C8 witnesses. -/
def docW2 : List SvgEl :=
  [⟨some "a", some "#AAAAAA"⟩, ⟨none, some "#111111"⟩, ⟨none, some "#222222"⟩]

theorem extract_null_key_holds_last_idless_witness :
    (∀ x ∈ docW2, x.id ≠ some "null") ∧ lastNone docW2 = some (2, ⟨none, some "#222222"⟩) ∧
      assocGet (extractSvgData docW2).2.comps "null" = some [⟨2, none, some "#222222"⟩] :=
  ⟨by decide, by decide,
    extract_null_key_holds_last_idless docW2 2 ⟨none, some "#222222"⟩ (by decide) (by decide)⟩

/-! ## Group counting and the palette bound -/

/-- The number of pops the loop performs on the palette while traversing the
elements, `seen` holding the truthy ids already assigned a gray: a truthy id
pops on its first occurrence, an id-less (or empty-id) element pops every
time — i.e. the number of distinct shape groups encountered. -/
def openings : List SvgEl → List String → Nat
  | [], _ => 0
  | el :: rest, seen =>
    if jsTruthy el.id then
      if jsKey el.id ∈ seen then openings rest seen
      else 1 + openings rest (jsKey el.id :: seen)
    else 1 + openings rest seen

/-- The number of distinct shape groups of a document: distinct truthy
identities count once, identity-less shapes count one group each. -/
def groupCount (doc : List SvgEl) : Nat := openings doc []

theorem openings_congr {els : List SvgEl} : ∀ (s1 s2 : List String),
    (∀ x, x ∈ s1 ↔ x ∈ s2) → openings els s1 = openings els s2 := by
  induction els with
  | nil => intro s1 s2 _; rfl
  | cons el rest ih =>
    intro s1 s2 h
    by_cases ht : jsTruthy el.id
    · by_cases hm : jsKey el.id ∈ s1
      · rw [openings, openings, if_pos ht, if_pos ht, if_pos hm, if_pos ((h _).1 hm),
          ih s1 s2 h]
      · have hm2 : jsKey el.id ∉ s2 := fun hc => hm ((h _).2 hc)
        rw [openings, openings, if_pos ht, if_pos ht, if_neg hm, if_neg hm2,
          ih (jsKey el.id :: s1) (jsKey el.id :: s2)
            (fun x => by simp only [List.mem_cons]; exact or_congr Iff.rfl (h x))]
    · rw [openings, openings, if_neg ht, if_neg ht, ih s1 s2 h]

theorem grays_ne_empty : ∀ s ∈ grays, s ≠ "" := by decide

theorem jsPop_fst_mem {l : List String} {a : String} (h : (jsPop l).1 = some a) : a ∈ l := by
  obtain ⟨hne, heq⟩ := List.mem_getLast?_eq_getLast (Option.mem_def.mpr h)
  exact heq ▸ List.getLast_mem hne

theorem jsPop_fst_of_ne_nil {l : List String} (h : l ≠ []) :
    (jsPop l).1 = some (l.getLast h) := by
  simp [jsPop, List.getLast?_eq_getLast_of_ne_nil h]

theorem assignFill_reuse (el : SvgEl) (g : List String) (u : List (String × Option String))
    {s : String} (ht : jsTruthy el.id = true)
    (hget : assocGet u (jsKey el.id) = some (some s)) (hs : s ≠ "") :
    assignFill el g u = ({ el with fill := some s }, g, u) := by
  simp [assignFill, ht, hget, hs]

theorem assignFill_fresh (el : SvgEl) (g : List String) (u : List (String × Option String))
    (ht : jsTruthy el.id = true) (hget : assocGet u (jsKey el.id) = none) :
    assignFill el g u =
      ({ el with fill := (jsPop g).1 }, (jsPop g).2, assocSet u (jsKey el.id) (jsPop g).1) := by
  simp [assignFill, ht, hget]

theorem assignFill_repop (el : SvgEl) (g : List String) (u : List (String × Option String))
    {v : Option String} (ht : jsTruthy el.id = true)
    (hget : assocGet u (jsKey el.id) = some v) (hv : v = none ∨ v = some "") :
    assignFill el g u =
      ({ el with fill := (jsPop g).1 }, (jsPop g).2, assocSet u (jsKey el.id) (jsPop g).1) := by
  rcases hv with hv | hv <;> subst hv <;> simp [assignFill, ht, hget]

theorem assignFill_idless (el : SvgEl) (g : List String) (u : List (String × Option String))
    (ht : jsTruthy el.id = false) :
    assignFill el g u = ({ el with fill := (jsPop g).1 }, (jsPop g).2, u) := by
  simp [assignFill, ht]

theorem fillGo_cons (el : SvgEl) (rest : List SvgEl) (g : List String)
    (u : List (String × Option String)) :
    fillGo (el :: rest) g u =
      ((assignFill el g u).1 :: (fillGo rest (assignFill el g u).2.1 (assignFill el g u).2.2).1,
        (fillGo rest (assignFill el g u).2.1 (assignFill el g u).2.2).2) := rfl

/-- The palette-bound invariant: while the number of groups still to open
fits in the remaining palette, every assigned fill is a palette gray, every
`usedGreys` value is a truthy palette gray, `usedGreys` entries are never
overwritten, and every truthy-id element's fill agrees with the final
`usedGreys` value of its identity. -/
theorem fillGo_bounded (els : List SvgEl) : ∀ (g : List String) (u : List (String × Option String)),
    List.Sublist g grays →
    (∀ p ∈ u, ∃ s, p.2 = some s ∧ s ∈ grays ∧ s ≠ "") →
    openings els (u.map Prod.fst) ≤ g.length →
    (∀ el ∈ (fillGo els g u).1, ∃ s, el.fill = some s ∧ s ∈ grays) ∧
      (∀ p ∈ (fillGo els g u).2.2, ∃ s, p.2 = some s ∧ s ∈ grays ∧ s ≠ "") ∧
      (∀ k v, assocGet u k = some v → assocGet (fillGo els g u).2.2 k = some v) ∧
      (∀ el ∈ (fillGo els g u).1, jsTruthy el.id →
        assocGet (fillGo els g u).2.2 (jsKey el.id) = some el.fill) := by
  induction els with
  | nil =>
    intro g u _ hused _
    exact ⟨fun el h => absurd h (by simp [fillGo]), hused,
      fun k v h => h, fun el h => absurd h (by simp [fillGo])⟩
  | cons el rest ih =>
    intro g u hsub hused hlen
    by_cases ht : jsTruthy el.id
    · cases hget : assocGet u (jsKey el.id) with
      | some v =>
        obtain ⟨s, hv, hsg, hsne⟩ := hused _ (assocGet_mem hget)
        rw [show ((jsKey el.id, v) : String × Option String).2 = v from rfl] at hv
        subst hv
        have heq := assignFill_reuse el g u ht hget hsne
        have hmem : jsKey el.id ∈ u.map Prod.fst := assocGet_keys_some hget
        have hlen' : openings rest (u.map Prod.fst) ≤ g.length := by
          rwa [openings, if_pos ht, if_pos hmem] at hlen
        obtain ⟨ih1, ih2, ih3, ih4⟩ := ih g u hsub hused hlen'
        rw [fillGo_cons, heq]
        refine ⟨?_, ih2, ih3, ?_⟩
        · intro x hx
          rcases List.mem_cons.1 hx with h1 | h1
          · exact ⟨s, by rw [h1], hsg⟩
          · exact ih1 x h1
        · intro x hx hxt
          rcases List.mem_cons.1 hx with h1 | h1
          · rw [h1]
            exact ih3 _ _ hget
          · exact ih4 x h1 hxt
      | none =>
        have hnm : jsKey el.id ∉ u.map Prod.fst := assocGet_keys_none hget
        have hlen1 : 1 + openings rest (jsKey el.id :: u.map Prod.fst) ≤ g.length := by
          rwa [openings, if_pos ht, if_neg hnm] at hlen
        have hgne : g ≠ [] := by
          intro hc
          rw [hc] at hlen1
          simp at hlen1
        have hgl := jsPop_fst_of_ne_nil hgne
        have hglmem : g.getLast hgne ∈ grays := hsub.subset (jsPop_fst_mem hgl)
        have hglne : g.getLast hgne ≠ "" := grays_ne_empty _ hglmem
        have heq' : assignFill el g u = ({ el with fill := some (g.getLast hgne) },
            (jsPop g).2, assocSet u (jsKey el.id) (some (g.getLast hgne))) := by
          rw [assignFill_fresh el g u ht hget, hgl]
        have hsub' : List.Sublist (jsPop g).2 grays :=
          (List.dropLast_sublist g).trans hsub
        have hused' : ∀ p ∈ assocSet u (jsKey el.id) (some (g.getLast hgne)),
            ∃ s, p.2 = some s ∧ s ∈ grays ∧ s ≠ "" := by
          intro p hp
          rcases mem_assocSet hp with h1 | h1
          · exact ⟨g.getLast hgne, by rw [h1], hglmem, hglne⟩
          · exact hused p h1
        have hlen'' : openings rest
            ((assocSet u (jsKey el.id) (some (g.getLast hgne))).map Prod.fst)
              ≤ (jsPop g).2.length := by
          have hcong : openings rest
              ((assocSet u (jsKey el.id) (some (g.getLast hgne))).map Prod.fst)
                = openings rest (jsKey el.id :: u.map Prod.fst) :=
            openings_congr _ _ (fun x => by
              rw [mem_keys_assocSet, List.mem_cons])
          have hlend : (jsPop g).2.length = g.length - 1 := by
            simp [jsPop]
          omega
        obtain ⟨ih1, ih2, ih3, ih4⟩ := ih (jsPop g).2 _ hsub' hused' hlen''
        rw [fillGo_cons, heq']
        refine ⟨?_, ih2, ?_, ?_⟩
        · intro x hx
          rcases List.mem_cons.1 hx with h1 | h1
          · exact ⟨g.getLast hgne, by rw [h1], hglmem⟩
          · exact ih1 x h1
        · intro k v hkv
          have hk : k ≠ jsKey el.id := fun hc => by
            rw [hc, hget] at hkv
            cases hkv
          exact ih3 k v (by rw [assocGet_assocSet_ne _ hk]; exact hkv)
        · intro x hx hxt
          rcases List.mem_cons.1 hx with h1 | h1
          · rw [h1]
            exact ih3 _ _ (assocGet_assocSet_self _ _ _)
          · exact ih4 x h1 hxt
    · have ht' : jsTruthy el.id = false := by simpa using ht
      have hlen1 : 1 + openings rest (u.map Prod.fst) ≤ g.length := by
        rwa [openings, if_neg (by simp [ht'])] at hlen
      have hgne : g ≠ [] := by
        intro hc
        rw [hc] at hlen1
        simp at hlen1
      have hgl := jsPop_fst_of_ne_nil hgne
      have hglmem : g.getLast hgne ∈ grays := hsub.subset (jsPop_fst_mem hgl)
      have heq' : assignFill el g u =
          ({ el with fill := some (g.getLast hgne) }, (jsPop g).2, u) := by
        rw [assignFill_idless el g u ht', hgl]
      have hsub' : List.Sublist (jsPop g).2 grays := (List.dropLast_sublist g).trans hsub
      have hlen'' : openings rest (u.map Prod.fst) ≤ (jsPop g).2.length := by
        have hlend : (jsPop g).2.length = g.length - 1 := by simp [jsPop]
        omega
      obtain ⟨ih1, ih2, ih3, ih4⟩ := ih (jsPop g).2 u hsub' hused hlen''
      rw [fillGo_cons, heq']
      refine ⟨?_, ih2, ih3, ?_⟩
      · intro x hx
        rcases List.mem_cons.1 hx with h1 | h1
        · exact ⟨g.getLast hgne, by rw [h1], hglmem⟩
        · exact ih1 x h1
      · intro x hx hxt
        rcases List.mem_cons.1 hx with h1 | h1
        · rw [h1] at hxt
          rw [show ({ el with fill := some (g.getLast hgne) } : SvgEl).id = el.id from rfl] at hxt
          rw [ht'] at hxt
          cases hxt
        · exact ih4 x h1 hxt

/-- When the groups still to open outnumber the remaining palette, some
element is assigned the `undefined` value popped from the empty palette. -/
theorem fillGo_exhausts (els : List SvgEl) : ∀ (g : List String)
    (u : List (String × Option String)),
    g.length < openings els (u.map Prod.fst) →
    ∃ el', el' ∈ (fillGo els g u).1 ∧ el'.fill = none := by
  induction els with
  | nil =>
    intro g u h
    rw [openings] at h
    omega
  | cons el rest ih =>
    intro g u h
    by_cases ht : jsTruthy el.id
    · cases hget : assocGet u (jsKey el.id) with
      | some v =>
        have hmem : jsKey el.id ∈ u.map Prod.fst := assocGet_keys_some hget
        have h' : g.length < openings rest (u.map Prod.fst) := by
          rwa [openings, if_pos ht, if_pos hmem] at h
        by_cases hv : v = none ∨ v = some ""
        · cases g with
          | nil =>
            have heq := assignFill_repop el [] u ht hget hv
            refine ⟨{ el with fill := none }, ?_, rfl⟩
            rw [fillGo_cons, heq]
            exact List.mem_cons_self _ _
          | cons a t =>
            have heq := assignFill_repop el (a :: t) u ht hget hv
            have hcong : openings rest
                ((assocSet u (jsKey el.id) (jsPop (a :: t)).1).map Prod.fst)
                  = openings rest (u.map Prod.fst) :=
              openings_congr _ _ (fun x => by
                rw [mem_keys_assocSet]
                constructor
                · rintro (h1 | h1)
                  · exact h1 ▸ hmem
                  · exact h1
                · exact fun h1 => Or.inr h1)
            have hlt : (jsPop (a :: t)).2.length <
                openings rest ((assocSet u (jsKey el.id) (jsPop (a :: t)).1).map Prod.fst) := by
              rw [hcong]
              have hd : (jsPop (a :: t)).2.length = t.length := by
                simp [jsPop]
              rw [hd]
              have := h'
              simp only [List.length_cons] at this
              omega
            obtain ⟨x, hx, hxf⟩ := ih (jsPop (a :: t)).2 _ hlt
            refine ⟨x, ?_, hxf⟩
            rw [fillGo_cons, heq]
            exact List.mem_cons_of_mem _ hx
        · push_neg at hv
          obtain ⟨hv1, hv2⟩ := hv
          cases v with
          | none => exact absurd rfl hv1
          | some s =>
            have hsne : s ≠ "" := fun hc => hv2 (by rw [hc])
            have heq := assignFill_reuse el g u ht hget hsne
            obtain ⟨x, hx, hxf⟩ := ih g u h'
            refine ⟨x, ?_, hxf⟩
            rw [fillGo_cons, heq]
            exact List.mem_cons_of_mem _ hx
      | none =>
        have hnm : jsKey el.id ∉ u.map Prod.fst := assocGet_keys_none hget
        have h' : g.length < 1 + openings rest (jsKey el.id :: u.map Prod.fst) := by
          rwa [openings, if_pos ht, if_neg hnm] at h
        cases g with
        | nil =>
          have heq := assignFill_fresh el [] u ht hget
          refine ⟨{ el with fill := none }, ?_, rfl⟩
          rw [fillGo_cons, heq]
          exact List.mem_cons_self _ _
        | cons a t =>
          have heq := assignFill_fresh el (a :: t) u ht hget
          have hcong : openings rest
              ((assocSet u (jsKey el.id) (jsPop (a :: t)).1).map Prod.fst)
                = openings rest (jsKey el.id :: u.map Prod.fst) :=
            openings_congr _ _ (fun x => by
              rw [mem_keys_assocSet, List.mem_cons])
          have hlt : (jsPop (a :: t)).2.length <
              openings rest ((assocSet u (jsKey el.id) (jsPop (a :: t)).1).map Prod.fst) := by
            rw [hcong]
            have hd : (jsPop (a :: t)).2.length = t.length := by
              simp [jsPop]
            rw [hd]
            have := h'
            simp only [List.length_cons] at this
            omega
          obtain ⟨x, hx, hxf⟩ := ih (jsPop (a :: t)).2 _ hlt
          refine ⟨x, ?_, hxf⟩
          rw [fillGo_cons, heq]
          exact List.mem_cons_of_mem _ hx
    · have ht' : jsTruthy el.id = false := by simpa using ht
      have h' : g.length < 1 + openings rest (u.map Prod.fst) := by
        rwa [openings, if_neg (by simp [ht'])] at h
      cases g with
      | nil =>
        have heq := assignFill_idless el [] u ht'
        refine ⟨{ el with fill := none }, ?_, rfl⟩
        rw [fillGo_cons, heq]
        exact List.mem_cons_self _ _
      | cons a t =>
        have heq := assignFill_idless el (a :: t) u ht'
        have hlt : (jsPop (a :: t)).2.length < openings rest (u.map Prod.fst) := by
          have hd : (jsPop (a :: t)).2.length = t.length := by
            simp [jsPop]
          rw [hd]
          have := h'
          simp only [List.length_cons] at this
          omega
        obtain ⟨x, hx, hxf⟩ := ih (jsPop (a :: t)).2 u hlt
        refine ⟨x, ?_, hxf⟩
        rw [fillGo_cons, heq]
        exact List.mem_cons_of_mem _ hx

/-- C3: on first load of a document with at most four distinct shape groups,
every shape element is assigned a placeholder colour popped from the fixed
gray palette, and shape elements sharing the same (truthy) identity
attribute receive the same placeholder colour. -/
theorem extract_assigns_palette (doc : List SvgEl) (h4 : groupCount doc ≤ 4) :
    (∀ el ∈ (extractSvgData doc).1, ∃ s, el.fill = some s ∧ s ∈ grays) ∧
      (∀ el1 ∈ (extractSvgData doc).1, ∀ el2 ∈ (extractSvgData doc).1,
        jsTruthy el1.id → el1.id = el2.id → el1.fill = el2.fill) := by
  have hproj : (extractSvgData doc).1 = (fillGo doc grays []).1 :=
    (extractGo_fills 0 doc initExtract).1
  have hmain := fillGo_bounded doc grays [] (List.Sublist.refl _)
    (fun p hp => absurd hp (by simp))
    (by simpa [groupCount, grays] using h4)
  obtain ⟨m1, m2, m3, m4⟩ := hmain
  constructor
  · intro x hx
    exact m1 x (hproj ▸ hx)
  · intro x hx y hy hxt hxy
    have hx' : x ∈ (fillGo doc grays []).1 := hproj ▸ hx
    have hy' : y ∈ (fillGo doc grays []).1 := hproj ▸ hy
    have e1 := m4 x hx' hxt
    have e2 := m4 y hy' (by rw [← hxy]; exact hxt)
    rw [hxy] at e1
    rw [e2] at e1
    exact (Option.some_injective _ e1).symm

theorem extract_assigns_palette_witness :
    groupCount docW1 ≤ 4 ∧
      ((∀ el ∈ (extractSvgData docW1).1, ∃ s, el.fill = some s ∧ s ∈ grays) ∧
        (∀ el1 ∈ (extractSvgData docW1).1, ∀ el2 ∈ (extractSvgData docW1).1,
          jsTruthy el1.id → el1.id = el2.id → el1.fill = el2.fill)) :=
  ⟨by decide, extract_assigns_palette docW1 (by decide)⟩

/-- C8: when a document has more distinct shape groups than the four palette
entries, the loop pops from the then-empty palette and stores the resulting
`undefined` value as a shape's fill — some element ends with the undefined
fill instead of any defined colour. -/
theorem extract_overflow_pops_undefined (doc : List SvgEl) (h : 4 < groupCount doc) :
    ∃ el, el ∈ (extractSvgData doc).1 ∧ el.fill = none := by
  have hproj : (extractSvgData doc).1 = (fillGo doc grays []).1 :=
    (extractGo_fills 0 doc initExtract).1
  obtain ⟨x, hx, hxf⟩ := fillGo_exhausts doc grays []
    (by simpa [groupCount, grays] using h)
  exact ⟨x, hproj ▸ hx, hxf⟩

/-- A five-group document: five identity-less shapes. -/
def docW5 : List SvgEl :=
  [⟨none, some "#101010"⟩, ⟨none, some "#202020"⟩, ⟨none, some "#303030"⟩,
    ⟨none, some "#404040"⟩, ⟨none, some "#505050"⟩]

theorem extract_overflow_pops_undefined_witness :
    4 < groupCount docW5 ∧ ∃ el, el ∈ (extractSvgData docW5).1 ∧ el.fill = none :=
  ⟨by decide, extract_overflow_pops_undefined docW5 (by decide)⟩

/-! ## `ColourPicker` (`colorPicker.jsx`) and the application colour -/

/-- The seven fixed swatches rendered by `ColourPicker`. -/
def pickerSwatches : List String :=
  ["#000000", "#FFFFFF", "#C8102E", "#FFCD00", "#ABCAE9", "#003DA5", "#1B7339"]

/-- `useState(null)`: the `selectedColor` state of `ColourPicker` starts as
null. -/
def colourPickerInitial : Option String := none

/-- The successive values of the `selectedColor` state across renders: the
initial null, then the value set by each swatch click. -/
def pickerStates (clicks : List String) : List (Option String) :=
  colourPickerInitial :: clicks.map some

/-- React `useEffect` with dependency list `[selectedColor]`, after the first
render: the effect body runs again exactly when the dependency changed from
the previous render. -/
def effectCallsFrom (prev : Option String) : List (Option String) → List (Option String)
  | [] => []
  | s :: rest => if s = prev then effectCallsFrom s rest else s :: effectCallsFrom s rest

/-- The arguments of the successive `selectColor(selectedColor)` invocations
performed by the `useEffect` of `ColourPicker`: it always runs after the
first render (mount), then on every change of `selectedColor`. -/
def effectCalls : List (Option String) → List (Option String)
  | [] => []
  | s0 :: rest => s0 :: effectCallsFrom s0 rest

/-- `useState('#FFFFFF')`: the colour state of `App` before any
`setColor` call. -/
def appColorInitial : Option String := some "#FFFFFF"

/-- The colour held by `App` after the `selectColor` invocations in `calls`:
each invocation is `(color) => setColor(color)`, so the last call wins. -/
def appColorAfter (calls : List (Option String)) : Option String :=
  calls.foldl (fun _ c => c) appColorInitial

/-- C10: on mount, before any swatch click, the `ColourPicker` selected
colour is null, its effect invokes the `selectColor` callback exactly once
and with null, and consequently the application's colour is null — not the
`'#FFFFFF'` default of `App` — until the user picks a swatch (after which
the application's colour is the clicked swatch). -/
theorem picker_mount_selects_null :
    colourPickerInitial = none ∧
      effectCalls (pickerStates []) = [none] ∧
      appColorAfter (effectCalls (pickerStates [])) = none ∧
      ∀ c : String, appColorAfter (effectCalls (pickerStates [c])) = some c := by
  refine ⟨rfl, rfl, rfl, ?_⟩
  intro c
  by_cases h : (some c : Option String) = none
  · cases h
  · simp [appColorAfter, effectCalls, pickerStates, effectCallsFrom, colourPickerInitial, h]

/-! ## The flag generator

`create_flag.py` is not part of the repository snapshot (only its callers —
`generate_flags.sh` and the README — are), so the generator is modelled from
the specification: canvas coordinates are exact rationals, directives are the
spec's tagged variants, colours are claimed through an explicit cursor into
the colour list in strict directive order, and a background region is
demanded exactly when no stripe directive is present (per the spec's
"star + background" example against its stripe examples, which demand no
extra background colour). -/

/-- Modelled from the spec: the orientation of a `StripeSet` directive. -/
inductive StripeDir
  | vertical
  | horizontal
deriving DecidableEq, Repr

/-- Modelled from the spec: the edge alignment of a `Side` directive. -/
inductive SideAlign
  | left
  | right
deriving DecidableEq, Repr

/-- Modelled from the spec: the tagged drawing directives of
`create_flag.py` (missing from the snapshot), §3 of the specification. -/
inductive Directive
  | stripeSet (dir : StripeDir) (ratios : List ℚ)
  | cross (armW armH thickA thickB : ℚ)
  | circle (cx cy r : ℚ)
  | rect (x y w h : ℚ)
  | triangle (pts : List (ℚ × ℚ))
  | canton (w h : ℚ)
  | side (width : ℚ) (count : Nat) (align : SideAlign)
  | star (points : Nat) (cx cy r rot : ℚ)
  | moon (cx cy outerR offX offY innerR : ℚ)
deriving DecidableEq, Repr

/-- Modelled from the spec: a shape of the output document; star and moon
shapes are kept parametric (their numeric vertex expansion is modelled
separately over the reals). -/
inductive ShapeKind
  | rect (x y w h : ℚ)
  | circle (cx cy r : ℚ)
  | polygon (pts : List (ℚ × ℚ))
  | starShape (points : Nat) (cx cy r rot : ℚ)
  | moonPath (cx cy outerR offX offY innerR : ℚ)
deriving DecidableEq, Repr

/-- Modelled from the spec: an output shape with its fill colour and
optional shared identity tag. -/
structure Shape where
  kind : ShapeKind
  fill : String
  identity : Option String
deriving DecidableEq, Repr

/-- Modelled from the spec: the generator's error kinds (§7). -/
inductive GenError
  | InvalidArgument
  | UnsupportedDirective
  | InsufficientColours
  | WriteError
deriving DecidableEq, Repr

/-- Modelled from the spec: the output flag document — an ordered sequence
of shapes on a canvas. -/
structure FlagDoc where
  country : String
  width : ℚ
  height : ℚ
  shapes : List Shape
deriving DecidableEq, Repr

/-- Modelled from the spec: claim the next unclaimed colour at cursor `idx`,
failing with `InsufficientColours` when the list is exhausted. -/
def claimOne (cs : List String) (idx : Nat) : Except GenError (String × Nat) :=
  match cs.get? idx with
  | some c => .ok (c, idx + 1)
  | none => .error .InsufficientColours

/-- Modelled from the spec: claim `n` consecutive colours from cursor
`idx`. -/
def claimMany (cs : List String) : Nat → Nat → Except GenError (List String × Nat)
  | idx, 0 => .ok ([], idx)
  | idx, n + 1 => do
    let p ← claimOne cs idx
    let q ← claimMany cs p.2 n
    .ok (p.1 :: q.1, q.2)

/-- Modelled from the spec: the stripe segment sizes of a `StripeSet` —
each segment is the canvas dimension scaled by its ratio's share of the
ratio sum. -/
def stripeWidths (dim : ℚ) (ratios : List ℚ) : List ℚ :=
  ratios.map (fun r => dim * r / ratios.sum)

/-- Modelled from the spec: vertical stripe rectangles, accumulating the
left offset. -/
def stripesV (hgt : ℚ) : List (ℚ × String) → ℚ → List Shape
  | [], _ => []
  | (sw, c) :: rest, off => ⟨.rect off 0 sw hgt, c, none⟩ :: stripesV hgt rest (off + sw)

/-- Modelled from the spec: horizontal stripe rectangles, accumulating the
top offset. -/
def stripesH (wid : ℚ) : List (ℚ × String) → ℚ → List Shape
  | [], _ => []
  | (sh, c) :: rest, off => ⟨.rect 0 off wid sh, c, none⟩ :: stripesH wid rest (off + sh)

/-- Modelled from the spec: the rectangles of a `StripeSet`, one per ratio,
sized by `stripeWidths` and coloured positionally. -/
def stripeShapes (dir : StripeDir) (w h : ℚ) (ratios : List ℚ)
    (cols : List String) : List Shape :=
  match dir with
  | .vertical => stripesV h ((stripeWidths w ratios).zip cols) 0
  | .horizontal => stripesH w ((stripeWidths h ratios).zip cols) 0

/-- Modelled from the spec: the `count` equal divisions of an edge-aligned
`Side` strip. -/
def sideRects (w h sw : ℚ) (count : Nat) (align : SideAlign)
    (cols : List String) : List Shape :=
  let x : ℚ := match align with | .left => 0 | .right => w - sw
  let segH : ℚ := h / count
  ((List.range count).zip cols).map
    (fun p => ⟨.rect x (p.1 * segH) sw segH, p.2, none⟩)

/-- Modelled from the spec: lay out one directive at colour cursor `idx`,
returning its shapes and the advanced cursor; a cross emits its two bars
under a shared identity and claims one colour. -/
def layoutDirective (w h : ℚ) (cs : List String) (idx : Nat) :
    Directive → Except GenError (List Shape × Nat)
  | .stripeSet dir ratios => do
    let q ← claimMany cs idx ratios.length
    .ok (stripeShapes dir w h ratios q.1, q.2)
  | .cross armW armH thickA thickB => do
    let p ← claimOne cs idx
    .ok ([⟨.rect (armW - thickA / 2) 0 thickA h, p.1, some ("cross" ++ toString idx)⟩,
      ⟨.rect 0 (armH - thickB / 2) w thickB, p.1, some ("cross" ++ toString idx)⟩], p.2)
  | .circle cx cy r => do
    let p ← claimOne cs idx
    .ok ([⟨.circle cx cy r, p.1, none⟩], p.2)
  | .rect x y rw rh => do
    let p ← claimOne cs idx
    .ok ([⟨.rect x y rw rh, p.1, none⟩], p.2)
  | .triangle pts => do
    let p ← claimOne cs idx
    .ok ([⟨.polygon pts, p.1, none⟩], p.2)
  | .canton cw ch => do
    let p ← claimOne cs idx
    .ok ([⟨.rect 0 0 cw ch, p.1, none⟩], p.2)
  | .side sw count align => do
    let q ← claimMany cs idx count
    .ok (sideRects w h sw count align q.1, q.2)
  | .star pts cx cy r rot => do
    let p ← claimOne cs idx
    .ok ([⟨.starShape pts cx cy r rot, p.1, none⟩], p.2)
  | .moon cx cy outerR offX offY innerR => do
    let p ← claimOne cs idx
    .ok ([⟨.moonPath cx cy outerR offX offY innerR, p.1, none⟩], p.2)

/-- Modelled from the spec: lay out the directive sequence left to right,
threading the colour cursor. -/
def layoutAll (w h : ℚ) (cs : List String) : List Directive → Nat →
    Except GenError (List Shape × Nat)
  | [], idx => .ok ([], idx)
  | d :: rest, idx => do
    let p ← layoutDirective w h cs idx d
    let q ← layoutAll w h cs rest p.2
    .ok (p.1 ++ q.1, q.2)

/-- Whether the directive sequence contains a `StripeSet`. -/
def hasStripes (ds : List Directive) : Bool :=
  ds.any fun d => match d with | .stripeSet _ _ => true | _ => false

/-- Modelled from the spec: the full generator — when no stripe directive
covers the canvas, a background rectangle claims the first colour, then the
directives are laid out in order. -/
def generate (country : String) (w h : ℚ) (ds : List Directive)
    (cs : List String) : Except GenError FlagDoc :=
  if hasStripes ds then do
    let p ← layoutAll w h cs ds 0
    .ok ⟨country, w, h, p.1⟩
  else do
    let b ← claimOne cs 0
    let p ← layoutAll w h cs ds b.2
    .ok ⟨country, w, h, ⟨.rect 0 0 w h, b.1, none⟩ :: p.1⟩

/-- The number of colour-claiming regions a directive demands (spec §3/§4.2:
one per stripe segment, one per side division, one otherwise — a cross
claims a single colour for its two bars). -/
def regionCount : Directive → Nat
  | .stripeSet _ ratios => ratios.length
  | .side _ count _ => count
  | _ => 1

/-- The total region count demanded by a directive sequence, including the
background region demanded when no stripe directive is present. -/
def totalDemand (ds : List Directive) : Nat :=
  (if hasStripes ds then 0 else 1) + (ds.map regionCount).sum

/-- The number of shapes a directive emits (a cross emits two bars). -/
def shapeCountOf : Directive → Nat
  | .stripeSet _ ratios => ratios.length
  | .cross _ _ _ _ => 2
  | .side _ count _ => count
  | _ => 1

/-- The number of shapes of a successfully generated document. -/
def expectedShapes (ds : List Directive) : Nat :=
  (if hasStripes ds then 0 else 1) + (ds.map shapeCountOf).sum

theorem exceptBind_ok {α β : Type} (a : α) (f : α → Except GenError β) :
    (Except.ok a >>= f) = f a := rfl

theorem exceptBind_err {α β : Type} (e : GenError) (f : α → Except GenError β) :
    ((Except.error e : Except GenError α) >>= f) = .error e := rfl

theorem claimOne_ok {cs : List String} {idx : Nat} (h : idx < cs.length) :
    ∃ c, claimOne cs idx = .ok (c, idx + 1) := by
  rw [claimOne]
  cases hg : cs.get? idx with
  | none =>
    rw [List.get?_eq_none] at hg
    omega
  | some c => exact ⟨c, rfl⟩

theorem claimOne_err {cs : List String} {idx : Nat} (h : cs.length ≤ idx) :
    claimOne cs idx = .error .InsufficientColours := by
  rw [claimOne, List.get?_eq_none.mpr h]

theorem claimMany_ok {cs : List String} (n : Nat) : ∀ idx, idx + n ≤ cs.length →
    ∃ l, claimMany cs idx n = .ok (l, idx + n) ∧ l.length = n := by
  induction n with
  | zero => exact fun idx _ => ⟨[], rfl, rfl⟩
  | succ m ih =>
    intro idx h
    obtain ⟨c, hc⟩ := claimOne_ok (show idx < cs.length by omega)
    obtain ⟨l, hl, hlen⟩ := ih (idx + 1) (by omega)
    refine ⟨c :: l, ?_, by simp [hlen]⟩
    show (claimOne cs idx >>= fun p => claimMany cs p.2 m >>= fun q => .ok (p.1 :: q.1, q.2))
      = .ok (c :: l, idx + (m + 1))
    rw [hc, exceptBind_ok]
    show (claimMany cs (idx + 1) m >>= fun q => .ok (c :: q.1, q.2)) = _
    rw [hl, exceptBind_ok]
    have : idx + 1 + m = idx + (m + 1) := by omega
    rw [this]

theorem claimMany_err {cs : List String} (n : Nat) : ∀ idx, idx ≤ cs.length →
    cs.length < idx + n → claimMany cs idx n = .error .InsufficientColours := by
  induction n with
  | zero => intro idx h1 h2; omega
  | succ m ih =>
    intro idx h1 h2
    show (claimOne cs idx >>= fun p => claimMany cs p.2 m >>= fun q => .ok (p.1 :: q.1, q.2))
      = .error .InsufficientColours
    rcases Nat.lt_or_ge idx cs.length with hlt | hge
    · obtain ⟨c, hc⟩ := claimOne_ok hlt
      rw [hc, exceptBind_ok]
      show (claimMany cs (idx + 1) m >>= fun q => .ok (c :: q.1, q.2)) = _
      rw [ih (idx + 1) (by omega) (by omega), exceptBind_err]
    · rw [claimOne_err hge, exceptBind_err]

theorem stripesV_length (hgt : ℚ) : ∀ (l : List (ℚ × String)) (off : ℚ),
    (stripesV hgt l off).length = l.length := by
  intro l
  induction l with
  | nil => intro off; rfl
  | cons p rest ih =>
    intro off
    obtain ⟨sw, c⟩ := p
    simp [stripesV, ih]

theorem stripesH_length (wid : ℚ) : ∀ (l : List (ℚ × String)) (off : ℚ),
    (stripesH wid l off).length = l.length := by
  intro l
  induction l with
  | nil => intro off; rfl
  | cons p rest ih =>
    intro off
    obtain ⟨sh, c⟩ := p
    simp [stripesH, ih]

theorem stripeShapes_length (dir : StripeDir) (w h : ℚ) (ratios : List ℚ)
    (cols : List String) (hc : cols.length = ratios.length) :
    (stripeShapes dir w h ratios cols).length = ratios.length := by
  cases dir <;>
    simp [stripeShapes, stripesV_length, stripesH_length, stripeWidths, hc]

theorem sideRects_length (w h sw : ℚ) (count : Nat) (align : SideAlign)
    (cols : List String) (hc : cols.length = count) :
    (sideRects w h sw count align cols).length = count := by
  simp [sideRects, hc]

theorem layoutDirective_ok {w h : ℚ} {cs : List String} (d : Directive) (idx : Nat)
    (hle : idx + regionCount d ≤ cs.length) :
    ∃ shapes, layoutDirective w h cs idx d = .ok (shapes, idx + regionCount d) ∧
      shapes.length = shapeCountOf d := by
  cases d with
  | stripeSet dir ratios =>
    obtain ⟨l, hl, hlen⟩ := claimMany_ok ratios.length idx (by simpa [regionCount] using hle)
    refine ⟨stripeShapes dir w h ratios l, ?_,
      stripeShapes_length dir w h ratios l hlen⟩
    simp only [layoutDirective, hl, exceptBind_ok]
    rfl
  | side sw count align =>
    obtain ⟨l, hl, hlen⟩ := claimMany_ok count idx (by simpa [regionCount] using hle)
    refine ⟨sideRects w h sw count align l, ?_,
      sideRects_length w h sw count align l hlen⟩
    simp only [layoutDirective, hl, exceptBind_ok]
    rfl
  | cross armW armH thickA thickB =>
    obtain ⟨c, hc⟩ := claimOne_ok (show idx < cs.length by
      simp [regionCount] at hle
      omega)
    refine ⟨[⟨.rect (armW - thickA / 2) 0 thickA h, c, some ("cross" ++ toString idx)⟩,
      ⟨.rect 0 (armH - thickB / 2) w thickB, c, some ("cross" ++ toString idx)⟩], ?_, rfl⟩
    simp only [layoutDirective, hc, exceptBind_ok]
    rfl
  | circle cx cy r =>
    obtain ⟨c, hc⟩ := claimOne_ok (show idx < cs.length by
      simp [regionCount] at hle
      omega)
    refine ⟨[⟨.circle cx cy r, c, none⟩], ?_, rfl⟩
    simp only [layoutDirective, hc, exceptBind_ok]
    rfl
  | rect x y rw' rh =>
    obtain ⟨c, hc⟩ := claimOne_ok (show idx < cs.length by
      simp [regionCount] at hle
      omega)
    refine ⟨[⟨.rect x y rw' rh, c, none⟩], ?_, rfl⟩
    simp only [layoutDirective, hc, exceptBind_ok]
    rfl
  | triangle pts =>
    obtain ⟨c, hc⟩ := claimOne_ok (show idx < cs.length by
      simp [regionCount] at hle
      omega)
    refine ⟨[⟨.polygon pts, c, none⟩], ?_, rfl⟩
    simp only [layoutDirective, hc, exceptBind_ok]
    rfl
  | canton cw ch =>
    obtain ⟨c, hc⟩ := claimOne_ok (show idx < cs.length by
      simp [regionCount] at hle
      omega)
    refine ⟨[⟨.rect 0 0 cw ch, c, none⟩], ?_, rfl⟩
    simp only [layoutDirective, hc, exceptBind_ok]
    rfl
  | star pts cx cy r rot =>
    obtain ⟨c, hc⟩ := claimOne_ok (show idx < cs.length by
      simp [regionCount] at hle
      omega)
    refine ⟨[⟨.starShape pts cx cy r rot, c, none⟩], ?_, rfl⟩
    simp only [layoutDirective, hc, exceptBind_ok]
    rfl
  | moon cx cy outerR offX offY innerR =>
    obtain ⟨c, hc⟩ := claimOne_ok (show idx < cs.length by
      simp [regionCount] at hle
      omega)
    refine ⟨[⟨.moonPath cx cy outerR offX offY innerR, c, none⟩], ?_, rfl⟩
    simp only [layoutDirective, hc, exceptBind_ok]
    rfl

theorem layoutDirective_err {w h : ℚ} {cs : List String} (d : Directive) (idx : Nat)
    (hle : idx ≤ cs.length) (hgt : cs.length < idx + regionCount d) :
    layoutDirective w h cs idx d = .error .InsufficientColours := by
  cases d with
  | stripeSet dir ratios =>
    rw [show layoutDirective w h cs idx (.stripeSet dir ratios)
        = (claimMany cs idx ratios.length >>= fun q =>
          .ok (stripeShapes dir w h ratios q.1, q.2)) from rfl,
      claimMany_err ratios.length idx hle (by simpa [regionCount] using hgt), exceptBind_err]
  | side sw count align =>
    rw [show layoutDirective w h cs idx (.side sw count align)
        = (claimMany cs idx count >>= fun q =>
          .ok (sideRects w h sw count align q.1, q.2)) from rfl,
      claimMany_err count idx hle (by simpa [regionCount] using hgt), exceptBind_err]
  | cross armW armH thickA thickB =>
    have hone := @claimOne_err cs idx (by simp [regionCount] at hgt; omega)
    simp only [layoutDirective, hone, exceptBind_err]
  | circle cx cy r =>
    have hone := @claimOne_err cs idx (by simp [regionCount] at hgt; omega)
    simp only [layoutDirective, hone, exceptBind_err]
  | rect x y rw' rh =>
    have hone := @claimOne_err cs idx (by simp [regionCount] at hgt; omega)
    simp only [layoutDirective, hone, exceptBind_err]
  | triangle pts =>
    have hone := @claimOne_err cs idx (by simp [regionCount] at hgt; omega)
    simp only [layoutDirective, hone, exceptBind_err]
  | canton cw ch =>
    have hone := @claimOne_err cs idx (by simp [regionCount] at hgt; omega)
    simp only [layoutDirective, hone, exceptBind_err]
  | star pts cx cy r rot =>
    have hone := @claimOne_err cs idx (by simp [regionCount] at hgt; omega)
    simp only [layoutDirective, hone, exceptBind_err]
  | moon cx cy outerR offX offY innerR =>
    have hone := @claimOne_err cs idx (by simp [regionCount] at hgt; omega)
    simp only [layoutDirective, hone, exceptBind_err]

theorem layoutAll_ok {w h : ℚ} {cs : List String} (ds : List Directive) :
    ∀ idx, idx + (ds.map regionCount).sum ≤ cs.length →
    ∃ shapes, layoutAll w h cs ds idx = .ok (shapes, idx + (ds.map regionCount).sum) ∧
      shapes.length = (ds.map shapeCountOf).sum := by
  induction ds with
  | nil => exact fun idx _ => ⟨[], by simp [layoutAll], rfl⟩
  | cons d rest ih =>
    intro idx hb
    have hb' : idx + (regionCount d + (rest.map regionCount).sum) ≤ cs.length := by
      simpa using hb
    obtain ⟨s1, hs1, hlen1⟩ := @layoutDirective_ok w h cs d idx (by omega)
    obtain ⟨s2, hs2, hlen2⟩ := ih (idx + regionCount d) (by omega)
    refine ⟨s1 ++ s2, ?_, by simp [hlen1, hlen2]⟩
    show (layoutDirective w h cs idx d >>= fun p =>
      layoutAll w h cs rest p.2 >>= fun q => .ok (p.1 ++ q.1, q.2)) = _
    rw [hs1, exceptBind_ok]
    show (layoutAll w h cs rest (idx + regionCount d) >>= fun q => .ok (s1 ++ q.1, q.2)) = _
    rw [hs2, exceptBind_ok]
    have harith : idx + regionCount d + (rest.map regionCount).sum
        = idx + ((d :: rest).map regionCount).sum := by
      simp [Nat.add_assoc]
    rw [harith]

theorem layoutAll_err {w h : ℚ} {cs : List String} (ds : List Directive) :
    ∀ idx, idx ≤ cs.length → cs.length < idx + (ds.map regionCount).sum →
    layoutAll w h cs ds idx = .error .InsufficientColours := by
  induction ds with
  | nil => intro idx h1 h2; simp at h2; omega
  | cons d rest ih =>
    intro idx h1 h2
    have h2' : cs.length < idx + (regionCount d + (rest.map regionCount).sum) := by
      simpa using h2
    show (layoutDirective w h cs idx d >>= fun p =>
      layoutAll w h cs rest p.2 >>= fun q => .ok (p.1 ++ q.1, q.2)) = _
    rcases Nat.lt_or_ge cs.length (idx + regionCount d) with hlt | hge
    · rw [layoutDirective_err d idx h1 hlt, exceptBind_err]
    · obtain ⟨s1, hs1, _⟩ := layoutDirective_ok d idx hge
      rw [hs1, exceptBind_ok]
      show (layoutAll w h cs rest (idx + regionCount d) >>= fun q =>
        .ok (s1 ++ q.1, q.2)) = _
      rw [ih (idx + regionCount d) hge (by omega), exceptBind_err]

/-- C4: the generator raises `InsufficientColours` exactly when the colour
list is strictly shorter than the total region count demanded by the
directive sequence (background region included when no stripe set covers
the canvas), and on success it emits every demanded region's shape — no
silent truncation. -/
theorem insufficientColours_iff (country : String) (w h : ℚ) (ds : List Directive)
    (cs : List String) :
    (generate country w h ds cs = .error .InsufficientColours ↔
        cs.length < totalDemand ds) ∧
      ∀ doc, generate country w h ds cs = .ok doc →
        doc.shapes.length = expectedShapes ds := by
  by_cases hs : hasStripes ds
  · have hgen : generate country w h ds cs
        = (layoutAll w h cs ds 0 >>= fun p => .ok ⟨country, w, h, p.1⟩) := by
      rw [generate, if_pos hs]
    have hdem : totalDemand ds = (ds.map regionCount).sum := by
      simp [totalDemand, hs]
    have hexp : expectedShapes ds = (ds.map shapeCountOf).sum := by
      simp [expectedShapes, hs]
    rcases Nat.lt_or_ge cs.length (ds.map regionCount).sum with hlt | hge
    · have herr := @layoutAll_err w h cs ds 0 (Nat.zero_le _) (by omega)
      rw [hgen, herr, exceptBind_err]
      refine ⟨⟨(fun _ => by omega), (fun _ => rfl)⟩, fun doc hdoc => by cases hdoc⟩
    · obtain ⟨shapes, hok, hlen⟩ := @layoutAll_ok w h cs ds 0 (by omega)
      rw [hgen, hok, exceptBind_ok]
      refine ⟨⟨(fun hc => by cases hc), (fun hc => by omega)⟩, fun doc hdoc => ?_⟩
      cases hdoc
      simpa [hexp] using hlen
  · have hgen : generate country w h ds cs = (claimOne cs 0 >>= fun b =>
        layoutAll w h cs ds b.2 >>= fun p =>
          .ok ⟨country, w, h, ⟨.rect 0 0 w h, b.1, none⟩ :: p.1⟩) := by
      rw [generate, if_neg hs]
    have hdem : totalDemand ds = 1 + (ds.map regionCount).sum := by
      simp [totalDemand, hs]
    have hexp : expectedShapes ds = 1 + (ds.map shapeCountOf).sum := by
      simp [expectedShapes, hs]
    rcases Nat.eq_zero_or_pos cs.length with hz | hpos
    · rw [hgen, claimOne_err (by omega), exceptBind_err]
      refine ⟨⟨(fun _ => by omega), (fun _ => rfl)⟩, fun doc hdoc => by cases hdoc⟩
    · obtain ⟨c, hc⟩ := claimOne_ok (show 0 < cs.length from hpos)
      rw [hgen, hc, exceptBind_ok]
      rcases Nat.lt_or_ge cs.length (1 + (ds.map regionCount).sum) with hlt | hge
      · have herr := @layoutAll_err w h cs ds 1 (by omega) (by omega)
        rw [herr, exceptBind_err]
        refine ⟨⟨(fun _ => by omega), (fun _ => rfl)⟩, fun doc hdoc => by cases hdoc⟩
      · obtain ⟨shapes, hok, hlen⟩ := @layoutAll_ok w h cs ds 1 (by omega)
        rw [hok, exceptBind_ok]
        refine ⟨⟨(fun hc2 => by cases hc2), (fun hc2 => by omega)⟩, fun doc hdoc => ?_⟩
        cases hdoc
        simp only [List.length_cons, hlen, hexp]
        omega

theorem insufficientColours_iff_witness :
    generate "x" 3 2 [Directive.star 5 1 1 1 0] ["C8102E"] = .error .InsufficientColours :=
  (insufficientColours_iff "x" 3 2 [Directive.star 5 1 1 1 0] ["C8102E"]).1.mpr (by decide)

/-! ## Serialization and determinism -/

/-- Modelled from the spec: serialize a point list. -/
def serializePts : List (ℚ × ℚ) → String
  | [] => ""
  | (x, y) :: rest => toString x ++ "," ++ toString y ++ " " ++ serializePts rest

/-- Modelled from the spec: the opening of one serialized shape element;
star and moon parameters are printed as data attributes (the numeric vertex
expansion is modelled separately). -/
def serializeKind : ShapeKind → String
  | .rect x y w h =>
    "<rect x=\"" ++ toString x ++ "\" y=\"" ++ toString y ++ "\" width=\""
      ++ toString w ++ "\" height=\"" ++ toString h ++ "\""
  | .circle cx cy r =>
    "<circle cx=\"" ++ toString cx ++ "\" cy=\"" ++ toString cy ++ "\" r=\""
      ++ toString r ++ "\""
  | .polygon pts => "<polygon points=\"" ++ serializePts pts ++ "\""
  | .starShape points cx cy r rot =>
    "<polygon data-star=\"" ++ toString points ++ " " ++ toString cx ++ " "
      ++ toString cy ++ " " ++ toString r ++ " " ++ toString rot ++ "\""
  | .moonPath cx cy outerR offX offY innerR =>
    "<path fill-rule=\"evenodd\" data-moon=\"" ++ toString cx ++ " " ++ toString cy
      ++ " " ++ toString outerR ++ " " ++ toString offX ++ " " ++ toString offY
      ++ " " ++ toString innerR ++ "\""

/-- Modelled from the spec: one element per shape, its fill attribute from
the assigned colour and its identity attribute when grouped (§4.3). -/
def serializeShape (s : Shape) : String :=
  serializeKind s.kind ++ " fill=\"#" ++ s.fill ++ "\""
    ++ (match s.identity with | none => "" | some i => " id=\"" ++ i ++ "\"")
    ++ " class=\"flag-component\"/>"

/-- Modelled from the spec: the document serializer — viewBox from the
canvas, one element per shape, in order (§4.3). -/
def serializeDoc (d : FlagDoc) : String :=
  "<svg viewBox=\"0 0 " ++ toString d.width ++ " " ++ toString d.height ++ "\">"
    ++ String.join (d.shapes.map serializeShape) ++ "</svg>"

/-- Modelled from the spec: the generator end to end, from argument list to
serialized output bytes. -/
def generateOutput (country : String) (w h : ℚ) (ds : List Directive)
    (cs : List String) : Except GenError String :=
  (generate country w h ds cs).map serializeDoc

/-- C5: generation is deterministic — any two runs of the generator on
identical argument lists (country name, canvas size, directive sequence,
colour list) produce byte-identical serialized output documents. -/
theorem generation_deterministic (c1 c2 : String) (w1 w2 h1 h2 : ℚ)
    (d1 d2 : List Directive) (l1 l2 : List String)
    (hc : c1 = c2) (hw : w1 = w2) (hh : h1 = h2) (hd : d1 = d2) (hl : l1 = l2) :
    generateOutput c1 w1 h1 d1 l1 = generateOutput c2 w2 h2 d2 l2 := by
  subst hc
  subst hw
  subst hh
  subst hd
  subst hl
  rfl

theorem generation_deterministic_witness :
    generateOutput "FRANCE" 3 2 [Directive.stripeSet .vertical [1, 1, 1]]
        ["000091", "FFFFFF", "E1000F"]
      = generateOutput "FRANCE" 3 2 [Directive.stripeSet .vertical [1, 1, 1]]
        ["000091", "FFFFFF", "E1000F"] :=
  generation_deterministic "FRANCE" "FRANCE" 3 3 2 2
    [Directive.stripeSet .vertical [1, 1, 1]] [Directive.stripeSet .vertical [1, 1, 1]]
    ["000091", "FFFFFF", "E1000F"] ["000091", "FFFFFF", "E1000F"] rfl rfl rfl rfl rfl

/-! ## Stripe geometry -/

/-- The width of a rectangle shape (0 for other shapes). -/
def shapeW (s : Shape) : ℚ :=
  match s.kind with
  | .rect _ _ w _ => w
  | _ => 0

/-- The height of a rectangle shape (0 for other shapes). -/
def shapeH (s : Shape) : ℚ :=
  match s.kind with
  | .rect _ _ _ h => h
  | _ => 0

theorem sum_scaled (dim S : ℚ) (l : List ℚ) :
    (l.map fun r => dim * r / S).sum = dim * l.sum / S := by
  induction l with
  | nil => simp
  | cons a t ih => simp [ih, mul_add, add_div]

theorem stripeWidths_sum (dim : ℚ) (ratios : List ℚ) (h1 : ratios ≠ [])
    (h2 : ∀ r ∈ ratios, 0 < r) : (stripeWidths dim ratios).sum = dim := by
  have hpos : 0 < ratios.sum := List.sum_pos ratios h2 h1
  rw [stripeWidths, sum_scaled, mul_div_assoc, div_self (ne_of_gt hpos), mul_one]

theorem stripesV_widths (hgt : ℚ) : ∀ (l : List (ℚ × String)) (off : ℚ),
    (stripesV hgt l off).map shapeW = l.map Prod.fst := by
  intro l
  induction l with
  | nil => intro off; rfl
  | cons p rest ih =>
    intro off
    obtain ⟨sw, c⟩ := p
    simp [stripesV, shapeW, ih]

theorem stripesH_heights (wid : ℚ) : ∀ (l : List (ℚ × String)) (off : ℚ),
    (stripesH wid l off).map shapeH = l.map Prod.fst := by
  intro l
  induction l with
  | nil => intro off; rfl
  | cons p rest ih =>
    intro off
    obtain ⟨sh, c⟩ := p
    simp [stripesH, shapeH, ih]

/-- C6: for a `StripeSet` with a non-empty sequence of positive ratios, each
emitted segment's size equals the canvas dimension × ratio⁄sum(ratios)
(`stripeWidths` is exactly that map), and the emitted rectangles' widths
(vertical) or heights (horizontal) sum to the canvas dimension exactly. -/
theorem stripes_exact_partition (dim : ℚ) (ratios : List ℚ)
    (h1 : ratios ≠ []) (h2 : ∀ r ∈ ratios, 0 < r) :
    stripeWidths dim ratios = ratios.map (fun r => dim * r / ratios.sum) ∧
      (stripeWidths dim ratios).sum = dim ∧
      (∀ (hgt : ℚ) (cols : List String), ratios.length ≤ cols.length →
        ((stripeShapes .vertical dim hgt ratios cols).map shapeW).sum = dim) ∧
      (∀ (wid : ℚ) (cols : List String), ratios.length ≤ cols.length →
        ((stripeShapes .horizontal wid dim ratios cols).map shapeH).sum = dim) := by
  refine ⟨rfl, stripeWidths_sum dim ratios h1 h2, ?_, ?_⟩
  · intro hgt cols hlen
    show ((stripesV hgt ((stripeWidths dim ratios).zip cols) 0).map shapeW).sum = dim
    rw [stripesV_widths, List.map_fst_zip _ _ (by simpa [stripeWidths] using hlen)]
    exact stripeWidths_sum dim ratios h1 h2
  · intro wid cols hlen
    show ((stripesH wid ((stripeWidths dim ratios).zip cols) 0).map shapeH).sum = dim
    rw [stripesH_heights, List.map_fst_zip _ _ (by simpa [stripeWidths] using hlen)]
    exact stripeWidths_sum dim ratios h1 h2

theorem stripes_exact_partition_witness :
    ([1, 1, 1] : List ℚ) ≠ [] ∧
      (stripeWidths 3 [1, 1, 1]).sum = 3 ∧
      ((stripeShapes .vertical 3 2 [1, 1, 1] ["000091", "FFFFFF", "E1000F"]).map
        shapeW).sum = 3 :=
  ⟨by decide,
    (stripes_exact_partition 3 [1, 1, 1] (by decide) (by decide)).2.1,
    (stripes_exact_partition 3 [1, 1, 1] (by decide) (by decide)).2.2.1 2
      ["000091", "FFFFFF", "E1000F"] (by decide)⟩

/-! ## Star geometry

Modelled from the spec: the `Star` directive computes `2·points` polygon
vertices at evenly spaced angles starting from `rotationDegrees`, centred at
(cx, cy), alternating between the outer radius `r` (even positions) and the
computed inner radius (odd positions).  The vertex construction is generic
in the field and the trigonometric functions; the claims are settled over
the reals with degree-based cosine and sine. -/

/-- Modelled from the spec: the angle, in degrees, of the `i`-th star
vertex: `rotationDegrees` plus `i` steps of the even spacing
`360⁄(2·points)`. -/
def starAngleDeg {K : Type} [Field K] (rot : K) (n i : ℕ) : K :=
  rot + (i : K) * (360 / (2 * (n : K)))

/-- Modelled from the spec: the radius of the `i`-th vertex — the outer
radius at even positions, the inner radius at odd ones (alternation). -/
def starRadiusAt {K : Type} [Field K] (r innerR : K) (i : ℕ) : K :=
  if i % 2 = 0 then r else innerR

/-- Modelled from the spec: the `i`-th vertex of the star polygon. -/
def starVertex {K : Type} [Field K] (cosd sind : K → K)
    (cx cy r innerR rot : K) (n i : ℕ) : K × K :=
  (cx + starRadiusAt r innerR i * cosd (starAngleDeg rot n i),
    cy + starRadiusAt r innerR i * sind (starAngleDeg rot n i))

/-- Modelled from the spec: the emitted polygon's vertex list, `2·points`
vertices in order. -/
def starVertices {K : Type} [Field K] (cosd sind : K → K)
    (cx cy r innerR rot : K) (n : ℕ) : List (K × K) :=
  (List.range (2 * n)).map (starVertex cosd sind cx cy r innerR rot n)

/-- Cosine of an angle given in degrees. -/
noncomputable def cosDeg (d : ℝ) : ℝ := Real.cos (d * Real.pi / 180)

/-- Sine of an angle given in degrees. -/
noncomputable def sinDeg (d : ℝ) : ℝ := Real.sin (d * Real.pi / 180)

/-- Euclidean distance from the centre (cx, cy) to a point. -/
noncomputable def distTo (cx cy : ℝ) (p : ℝ × ℝ) : ℝ :=
  Real.sqrt ((p.1 - cx) ^ 2 + (p.2 - cy) ^ 2)

theorem cosDeg_sq_add_sinDeg_sq (d : ℝ) : cosDeg d ^ 2 + sinDeg d ^ 2 = 1 := by
  rw [cosDeg, sinDeg]
  exact Real.cos_sq_add_sin_sq _

/-- C7: every vertex of the emitted star polygon lies at distance `r` (even
positions, the outer vertices) or the inner radius (odd positions) from the
centre (cx, cy); the vertex angles are evenly spaced with constant step
`360⁄(2·points)`; and the angle of the first vertex equals
`rotationDegrees`. -/
theorem star_vertex_geometry (cx cy r innerR rot : ℝ) (n i : ℕ)
    (hr : 0 ≤ r) (hin : 0 ≤ innerR) (p : ℝ × ℝ)
    (hp : (starVertices cosDeg sinDeg cx cy r innerR rot n).get? i = some p) :
    distTo cx cy p = starRadiusAt r innerR i ∧
      (∀ j : ℕ, starAngleDeg rot n (j + 1) - starAngleDeg rot n j
          = 360 / (2 * (n : ℝ))) ∧
      starAngleDeg rot n 0 = rot := by
  have hpv : p = starVertex cosDeg sinDeg cx cy r innerR rot n i := by
    rw [starVertices, List.get?_map] at hp
    have hi : i < 2 * n := by
      by_contra hcon
      rw [List.get?_eq_none.mpr (by simpa using hcon)] at hp
      simp at hp
    rw [List.get?_range hi] at hp
    simp only [Option.map_some'] at hp
    exact (Option.some_injective _ hp).symm
  subst hpv
  refine ⟨?_, ?_, ?_⟩
  · rw [distTo, starVertex]
    have hρ : 0 ≤ starRadiusAt r innerR i := by
      rw [starRadiusAt]
      split <;> assumption
    have hkey : ((cx + starRadiusAt r innerR i * cosDeg (starAngleDeg rot n i), cy
          + starRadiusAt r innerR i * sinDeg (starAngleDeg rot n i)).1 - cx) ^ 2
        + ((cx + starRadiusAt r innerR i * cosDeg (starAngleDeg rot n i), cy
          + starRadiusAt r innerR i * sinDeg (starAngleDeg rot n i)).2 - cy) ^ 2
        = (starRadiusAt r innerR i) ^ 2 := by
      have hexp : ((cx + starRadiusAt r innerR i * cosDeg (starAngleDeg rot n i), cy
            + starRadiusAt r innerR i * sinDeg (starAngleDeg rot n i)).1 - cx) ^ 2
          + ((cx + starRadiusAt r innerR i * cosDeg (starAngleDeg rot n i), cy
            + starRadiusAt r innerR i * sinDeg (starAngleDeg rot n i)).2 - cy) ^ 2
          = (starRadiusAt r innerR i) ^ 2 * (cosDeg (starAngleDeg rot n i) ^ 2
            + sinDeg (starAngleDeg rot n i) ^ 2) := by
        ring
      rw [hexp, cosDeg_sq_add_sinDeg_sq, mul_one]
    rw [hkey]
    exact Real.sqrt_sq hρ
  · intro j
    rw [starAngleDeg, starAngleDeg]
    push_cast
    ring
  · rw [starAngleDeg]
    simp

theorem star_vertex_geometry_witness :
    distTo 0 0 (starVertex cosDeg sinDeg 0 0 1 (1 / 2) 30 5 0)
        = starRadiusAt 1 (1 / 2) 0 ∧
      starAngleDeg (30 : ℝ) 5 0 = 30 := by
  have hp : (starVertices cosDeg sinDeg 0 0 1 (1 / 2) 30 5).get? 0
      = some (starVertex cosDeg sinDeg 0 0 1 (1 / 2) 30 5 0) := by
    rw [starVertices, List.get?_map, List.get?_range (by norm_num)]
    rfl
  have h := star_vertex_geometry 0 0 1 (1 / 2) 30 5 0 (by norm_num) (by norm_num)
    (starVertex cosDeg sinDeg 0 0 1 (1 / 2) 30 5 0) hp
  exact ⟨h.1, h.2.2⟩

end FlagGame
